import Mathlib

/-!
Shallow embedding of `src/model.py` from the Sketch-RNN-GAN repository.

Tensors are modelled as total functions over `Fin`-index types, with real
numbers for float entries.  Elementwise torch operations become pointwise
operations on these functions; `torch.sum` becomes a finite sum over the
index types; `torch.log`, `torch.exp`, `torch.sqrt` become `Real.log`,
`Real.exp`, `Real.sqrt`; `np.pi` becomes `Real.pi`.  The imperative
training loop of `Model.train` is modelled by the trace of events it emits
in program order.
-/

namespace SketchRNNGAN

open BigOperators

noncomputable section

/-- The row `torch.Tensor([0, 0, 0, 0, 1])` built in `get_ground_truth`
(`model.py` line 28): the end-of-sequence stroke. -/
def eosRow : Fin 5 → ℝ := fun j => if (j : ℕ) = 4 then 1 else 0

/-- The tensor `torch.cat([batch, end_of_sequence], 0)` of `get_ground_truth`
(`model.py` line 29): the batch with one end-of-sequence row appended at the
end of the time axis (dimension 0). -/
def extendBatch {T B : ℕ} (batch : Fin T → Fin B → Fin 5 → ℝ) :
    Fin (T + 1) → Fin B → Fin 5 → ℝ :=
  fun t b j => if h : (t : ℕ) < T then batch ⟨t, h⟩ b j else eosRow j

/-- One iteration of the mask-filling loop of `get_ground_truth`
(`model.py` lines 33-34): the slice assignment
`mask[1:sequence_length + 1, sequence_index] = 1` on a matrix with `rows`
rows, where torch slicing clamps the stop index to the number of rows. -/
def sliceAssignOne (rows col stop : ℕ) (m : ℕ → ℕ → ℝ) : ℕ → ℕ → ℝ :=
  fun r c => if c = col ∧ 1 ≤ r ∧ r < min stop rows then 1 else m r c

/-- The loop `for sequence_index, sequence_length in enumerate(sequence_lengths)`
of `get_ground_truth` (`model.py` lines 33-34), acting on an
index-and-length list as produced by `enumerate`. -/
def maskLoop (rows : ℕ) : List (ℕ × ℕ) → (ℕ → ℕ → ℝ) → (ℕ → ℕ → ℝ)
  | [], m => m
  | (idx, len) :: rest, m => maskLoop rows rest (sliceAssignOne rows idx (len + 1) m)

/-- The mask built by `get_ground_truth` (`model.py` lines 30-34): a
`torch.zeros(N_max + 1, batch_width)` matrix filled by `maskLoop` over the
enumerated sequence lengths. -/
def get_mask (Nmax B : ℕ) (lengths : List ℕ) : Fin (Nmax + 1) → Fin B → ℝ :=
  fun r c => maskLoop (Nmax + 1) lengths.enum (fun _ _ => 0) (r : ℕ) (c : ℕ)

/-- The method `Model.get_ground_truth` (`model.py` lines 27-41).  The input
batch has `Nmax + 1` time steps (start-of-sequence row plus `Nmax` padded
strokes), `B` batch elements and 5 stroke components; `M` is
`hps.num_mixture`.  Returns `(mask, delta_x, delta_y, pen_state)`. -/
def get_ground_truth (Nmax B M : ℕ) (batch : Fin (Nmax + 1) → Fin B → Fin 5 → ℝ)
    (lengths : List ℕ) :
    (Fin (Nmax + 1) → Fin B → ℝ) ×
    (Fin (Nmax + 1) → Fin B → Fin M → ℝ) ×
    (Fin (Nmax + 1) → Fin B → Fin M → ℝ) ×
    (Fin (Nmax + 1) → Fin B → Fin 3 → ℝ) :=
  let batchExt := extendBatch batch
  let mask := get_mask Nmax B lengths
  let delta_x : Fin (Nmax + 1) → Fin B → Fin M → ℝ := fun t b _ => batchExt t.succ b 0
  let delta_y : Fin (Nmax + 1) → Fin B → Fin M → ℝ := fun t b _ => batchExt t.succ b 1
  let pen_state : Fin (Nmax + 1) → Fin B → Fin 3 → ℝ :=
    fun t b k => batchExt t.succ b ⟨(k : ℕ) + 2, by omega⟩
  (mask, delta_x, delta_y, pen_state)

/-- The method `Model.compute_bivariate_normal_pdf` (`model.py` lines 43-49),
on scalars (torch applies it elementwise). -/
def compute_bivariate_normal_pdf (delta_x delta_y mu_x mu_y sigma_x sigma_y rho_xy : ℝ) : ℝ :=
  let z_x := ((delta_x - mu_x) / sigma_x) ^ 2
  let z_y := ((delta_y - mu_y) / sigma_y) ^ 2
  let z_xy := 2 * rho_xy * (delta_x - mu_x) / sigma_x * (delta_y - mu_y) / sigma_y
  let exp := Real.exp ((z_x + z_y - z_xy) / (-2 * (1 - rho_xy ^ 2)))
  let const := 1 / (2 * Real.pi * sigma_x * sigma_y * Real.sqrt (1 - rho_xy ^ 2))
  const * exp

/-- The standard bivariate Gaussian density as the specification states it:
`(1 / (2 pi sigma_x sigma_y sqrt(1 - rho^2))) * exp(-(zx + zy - 2 rho zx1 zy1) / (2 (1 - rho^2)))`
with `zx1 = (delta_x - mu_x)/sigma_x` and `zy1 = (delta_y - mu_y)/sigma_y`. -/
def spec_bivariate_normal_pdf (delta_x delta_y mu_x mu_y sigma_x sigma_y rho_xy : ℝ) : ℝ :=
  (1 / (2 * Real.pi * sigma_x * sigma_y * Real.sqrt (1 - rho_xy ^ 2))) *
    Real.exp (-((((delta_x - mu_x) / sigma_x) ^ 2 + ((delta_y - mu_y) / sigma_y) ^ 2 -
        2 * rho_xy * ((delta_x - mu_x) / sigma_x) * ((delta_y - mu_y) / sigma_y)) /
      (2 * (1 - rho_xy ^ 2))))

/-- The subterm `self.hps.epsilon + torch.sum(pi * bivariate_normal_pdf, 2)` fed
to `torch.log` in the stroke loss `Ls` of `compute_reconstruction_loss`
(`model.py` line 54). -/
def stroke_log_arg {T B M : ℕ} (eps : ℝ) (pi pdf : Fin T → Fin B → Fin M → ℝ)
    (t : Fin T) (b : Fin B) : ℝ :=
  eps + ∑ m, pi t b m * pdf t b m

/-- The subterm `q` fed to `torch.log` in the pen loss `Lp` of
`compute_reconstruction_loss` (`model.py` line 56): the raw tensor, with no
epsilon added. -/
def pen_log_arg {T B : ℕ} (q : Fin T → Fin B → Fin 3 → ℝ)
    (t : Fin T) (b : Fin B) (k : Fin 3) : ℝ :=
  q t b k

/-- The method `Model.compute_reconstruction_loss` (`model.py` lines 51-57).
`Nmax` is `self.N_max` and `bs` is `self.hps.batch_size`, both entering only
through the normalization constant `float((self.N_max + 1) * self.hps.batch_size)`;
`eps` is `self.hps.epsilon`.  Returns `(Ls + Lp, Ls, Lp)`. -/
def compute_reconstruction_loss (Nmax bs : ℕ) (eps : ℝ) {T B M : ℕ}
    (mask : Fin T → Fin B → ℝ) (delta_x delta_y : Fin T → Fin B → Fin M → ℝ)
    (pen_state : Fin T → Fin B → Fin 3 → ℝ)
    (pi mu_x mu_y sigma_x sigma_y rho_xy : Fin T → Fin B → Fin M → ℝ)
    (q : Fin T → Fin B → Fin 3 → ℝ) : ℝ × ℝ × ℝ :=
  let bivariate_normal_pdf : Fin T → Fin B → Fin M → ℝ := fun t b m =>
    compute_bivariate_normal_pdf (delta_x t b m) (delta_y t b m) (mu_x t b m)
      (mu_y t b m) (sigma_x t b m) (sigma_y t b m) (rho_xy t b m)
  let Ls := -(∑ t, ∑ b, mask t b *
      Real.log (stroke_log_arg eps pi bivariate_normal_pdf t b)) /
    (((Nmax + 1) * bs : ℕ) : ℝ)
  let Lp := -(∑ t, ∑ b, ∑ k, pen_state t b k * Real.log (pen_log_arg q t b k)) /
    (((Nmax + 1) * bs : ℕ) : ℝ)
  (Ls + Lp, Ls, Lp)

/-- The stroke loss as the specification states it:
`-sum(mask * log(epsilon + sum over the mixture dimension of pi * pdf)) / ((N_max + 1) * batch_size)`
with `pdf` the standard bivariate Gaussian density. -/
def spec_Ls (Nmax bs : ℕ) (eps : ℝ) {T B M : ℕ}
    (mask : Fin T → Fin B → ℝ)
    (delta_x delta_y pi mu_x mu_y sigma_x sigma_y rho_xy : Fin T → Fin B → Fin M → ℝ) : ℝ :=
  -(∑ t, ∑ b, mask t b * Real.log (eps + ∑ m, pi t b m *
      spec_bivariate_normal_pdf (delta_x t b m) (delta_y t b m) (mu_x t b m)
        (mu_y t b m) (sigma_x t b m) (sigma_y t b m) (rho_xy t b m))) /
    (((Nmax + 1) * bs : ℕ) : ℝ)

/-- The pen loss as the specification states it:
`-sum(pen_state * log(q)) / ((N_max + 1) * batch_size)`. -/
def spec_Lp (Nmax bs : ℕ) {T B : ℕ}
    (pen_state q : Fin T → Fin B → Fin 3 → ℝ) : ℝ :=
  -(∑ t, ∑ b, ∑ k, pen_state t b k * Real.log (q t b k)) /
    (((Nmax + 1) * bs : ℕ) : ℝ)

/-- The criterion `torch.nn.MSELoss()` created in `Model.train`
(`model.py` line 66), with its default mean reduction. -/
def criterion_GAN {n : ℕ} (pred target : Fin n → ℝ) : ℝ :=
  (∑ j, (pred j - target j) ^ 2) / (n : ℝ)

/-- The tensor `valid = Variable(Tensor(np.ones(batch_size)))` of `Model.train`
(`model.py` line 67). -/
def valid (bs : ℕ) : Fin bs → ℝ := fun _ => 1

/-- The tensor `fake = Variable(Tensor(np.zeros(batch_size)))` of `Model.train`
(`model.py` line 68). -/
def fake (bs : ℕ) : Fin bs → ℝ := fun _ => 0

/-- The loss values computed by one iteration of `Model.train`
(`model.py` lines 83-107): `gan_loss_weight` is `self.hps.gan_loss_weight`,
`discriminator` abstracts `self.discriminator(-, batch_size)` on the type `S`
of its inputs, `generated_sequences` and `batch_input` are the two tensors it
is applied to, and the remaining arguments feed `compute_reconstruction_loss`.
Returns `(loss_G, loss_D)`. -/
def epoch_losses {S : Type} (Nmax bs : ℕ) (eps gan_loss_weight : ℝ)
    (discriminator : S → Fin bs → ℝ) (generated_sequences batch_input : S)
    {T B M : ℕ} (mask : Fin T → Fin B → ℝ)
    (delta_x delta_y : Fin T → Fin B → Fin M → ℝ)
    (pen_state : Fin T → Fin B → Fin 3 → ℝ)
    (pi mu_x mu_y sigma_x sigma_y rho_xy : Fin T → Fin B → Fin M → ℝ)
    (q : Fin T → Fin B → Fin 3 → ℝ) : ℝ × ℝ :=
  let gen_validity := discriminator generated_sequences
  let loss_GAN := criterion_GAN gen_validity (valid bs)
  let loss_content := (compute_reconstruction_loss Nmax bs eps mask delta_x delta_y
    pen_state pi mu_x mu_y sigma_x sigma_y rho_xy q).1
  let loss_G := (1 - gan_loss_weight) * loss_content + gan_loss_weight * loss_GAN
  let loss_real := criterion_GAN (discriminator batch_input) (valid bs)
  let loss_fake := criterion_GAN (discriminator generated_sequences) (fake bs)
  let loss_D := (loss_real + loss_fake) / 2
  (loss_G, loss_D)

/-- The division and square-root obligations of `compute_bivariate_normal_pdf`
(`model.py` lines 44-48): the divisors `sigma_x`, `sigma_y`,
`-2 * (1 - rho_xy ** 2)` and `2 * np.pi * sigma_x * sigma_y * torch.sqrt(1 - rho_xy ** 2)`
are nonzero and the argument `1 - rho_xy ** 2` of the square root is positive. -/
def bivariate_pdf_denominators_nonzero (sigma_x sigma_y rho_xy : ℝ) : Prop :=
  sigma_x ≠ 0 ∧ sigma_y ≠ 0 ∧ 0 < 1 - rho_xy ^ 2 ∧
    -2 * (1 - rho_xy ^ 2) ≠ 0 ∧
    2 * Real.pi * sigma_x * sigma_y * Real.sqrt (1 - rho_xy ^ 2) ≠ 0

end

/-- The elementary operations of one iteration of the loop
`for i in range(self.hps.num_epoch)` in `Model.train` (`model.py` lines 65-115),
in program order. -/
inductive TrainEvent where
  | setupCriterion
  | fetchBatch
  | buildInputs
  | zeroGradG
  | generatorForward
  | generateSequences
  | discForwardGen
  | computeLossGAN
  | buildGroundTruth
  | computeContentLoss
  | computeLossG
  | backwardG
  | stepG
  | zeroGradD
  | discForwardReal
  | discForwardGenAgain
  | computeLossD
  | backwardD
  | stepD
  | printLog
  | saveModel
  | generateImage
  deriving DecidableEq

/-- The fixed body of one training iteration (`model.py` lines 66-112),
before the conditional save block. -/
def epochBody : List TrainEvent :=
  [TrainEvent.setupCriterion, TrainEvent.fetchBatch, TrainEvent.buildInputs,
   TrainEvent.zeroGradG, TrainEvent.generatorForward, TrainEvent.generateSequences,
   TrainEvent.discForwardGen, TrainEvent.computeLossGAN, TrainEvent.buildGroundTruth,
   TrainEvent.computeContentLoss, TrainEvent.computeLossG, TrainEvent.backwardG,
   TrainEvent.stepG, TrainEvent.zeroGradD, TrainEvent.discForwardReal,
   TrainEvent.discForwardGenAgain, TrainEvent.computeLossD, TrainEvent.backwardD,
   TrainEvent.stepD, TrainEvent.printLog]

/-- The trace of iteration `i` of the training loop: the fixed body followed by
the model save and image generation exactly when `i % 100 == 0`
(`model.py` lines 113-115). -/
def epochTrace (i : ℕ) : List TrainEvent :=
  epochBody ++ (if i % 100 = 0 then [TrainEvent.saveModel, TrainEvent.generateImage] else [])

/-- The full trace of `Model.train` (`model.py` lines 65-115): the iterations of
`for i in range(num_epoch)` run one after the other. -/
def trainTrace (num_epoch : ℕ) : List TrainEvent :=
  (List.range num_epoch).flatMap epochTrace

/-- The code's exponent `(z_x + z_y - z_xy) / (-2 * (1 - rho ** 2))` and the
specification's exponent agree as real numbers, and hence the two density
expressions agree everywhere. -/
theorem bivariate_pdf_eq_spec (dx dy mx my sx sy r : ℝ) :
    compute_bivariate_normal_pdf dx dy mx my sx sy r =
      spec_bivariate_normal_pdf dx dy mx my sx sy r := by
  have harg : (((dx - mx) / sx) ^ 2 + ((dy - my) / sy) ^ 2 -
      2 * r * (dx - mx) / sx * (dy - my) / sy) / (-2 * (1 - r ^ 2)) =
      -((((dx - mx) / sx) ^ 2 + ((dy - my) / sy) ^ 2 -
        2 * r * ((dx - mx) / sx) * ((dy - my) / sy)) / (2 * (1 - r ^ 2))) := by
    rw [show (-2 * (1 - r ^ 2) : ℝ) = -(2 * (1 - r ^ 2)) by ring, div_neg]
    ring
  simp only [compute_bivariate_normal_pdf, spec_bivariate_normal_pdf]
  rw [harg]

/-- Closed form of `maskLoop` on an enumeration starting at `k`: entry `(r, c)`
is `1` exactly when column `c` is one of the enumerated columns and `r` lies in
the (clamped) slice `[1, length + 1)` for that column, and is otherwise
whatever the initial matrix held. -/
theorem maskLoop_enumFrom (rows : ℕ) (l : List ℕ) (k : ℕ) (m : ℕ → ℕ → ℝ) (r c : ℕ) :
    maskLoop rows (l.enumFrom k) m r c =
      if k ≤ c ∧ c < k + l.length ∧ 1 ≤ r ∧ r < min (l.getD (c - k) 0 + 1) rows then 1
      else m r c := by
  induction l generalizing k m with
  | nil =>
      simp only [List.enumFrom, maskLoop, List.length_nil, Nat.add_zero]
      rw [if_neg]
      rintro ⟨h1, h2, -⟩
      omega
  | cons a as ih =>
      simp only [List.enumFrom, maskLoop]
      rw [ih]
      rcases Nat.lt_trichotomy c k with hc | hc | hc
      · rw [if_neg (by omega), if_neg (by omega)]
        simp only [sliceAssignOne]
        rw [if_neg (by omega)]
      · subst hc
        rw [if_neg (by omega)]
        simp only [sliceAssignOne, List.length_cons, Nat.sub_self, List.getD_cons_zero]
        by_cases hr : 1 ≤ r ∧ r < min (a + 1) rows
        · rw [if_pos ⟨trivial, hr⟩, if_pos ⟨Nat.le_refl c, by omega, hr⟩]
        · rw [if_neg (by tauto), if_neg (by tauto)]
      · have hgd : (a :: as).getD (c - k) 0 = as.getD (c - (k + 1)) 0 := by
          have h1 : c - k = (c - (k + 1)) + 1 := by omega
          rw [h1, List.getD_cons_succ]
        rw [hgd]
        simp only [sliceAssignOne, List.length_cons]
        rw [if_neg (show ¬(c = k ∧ 1 ≤ r ∧ r < min (a + 1) rows) by omega)]
        have hiff : (k + 1 ≤ c ∧ c < k + 1 + as.length ∧ 1 ≤ r ∧
            r < min (as.getD (c - (k + 1)) 0 + 1) rows) ↔
            (k ≤ c ∧ c < k + (as.length + 1) ∧ 1 ≤ r ∧
            r < min (as.getD (c - (k + 1)) 0 + 1) rows) := by
          constructor <;> rintro ⟨h1, h2, h3, h4⟩ <;> exact ⟨by omega, by omega, h3, h4⟩
        exact if_congr hiff rfl rfl

/-- Closed form of the ground-truth mask when the sequence lengths fit the
padded length `Nmax`: column `c` holds `1` exactly at rows `1` through the
column's sequence length, inclusive. -/
theorem get_mask_eq (Nmax B : ℕ) (lengths : List ℕ) (r : Fin (Nmax + 1)) (c : Fin B)
    (hc : (c : ℕ) < lengths.length) (hlen : ∀ x ∈ lengths, x ≤ Nmax) :
    get_mask Nmax B lengths r c =
      if 1 ≤ (r : ℕ) ∧ (r : ℕ) ≤ lengths.getD (c : ℕ) 0 then 1 else 0 := by
  unfold get_mask
  rw [show lengths.enum = lengths.enumFrom 0 from rfl, maskLoop_enumFrom]
  have hle : lengths.getD (c : ℕ) 0 ≤ Nmax := by
    have hmem : lengths.getD (c : ℕ) 0 ∈ lengths := by
      rw [List.getD_eq_getElem lengths 0 hc]
      exact List.getElem_mem hc
    exact hlen _ hmem
  simp only [Nat.sub_zero, Nat.zero_add]
  have hiff : (0 ≤ (c : ℕ) ∧ (c : ℕ) < lengths.length ∧ 1 ≤ (r : ℕ) ∧
      (r : ℕ) < min (lengths.getD (c : ℕ) 0 + 1) (Nmax + 1)) ↔
      (1 ≤ (r : ℕ) ∧ (r : ℕ) ≤ lengths.getD (c : ℕ) 0) := by
    constructor
    · rintro ⟨-, -, h3, h4⟩
      exact ⟨h3, by omega⟩
    · rintro ⟨h3, h4⟩
      exact ⟨Nat.zero_le _, hc, h3, by omega⟩
  exact if_congr hiff rfl rfl

/-- Row 0 of the ground-truth mask is zero in every column, with no hypothesis
on the lengths: the slice assignments start at row 1. -/
theorem get_mask_row_zero (Nmax B : ℕ) (lengths : List ℕ) (r : Fin (Nmax + 1)) (c : Fin B)
    (hr : (r : ℕ) = 0) : get_mask Nmax B lengths r c = 0 := by
  unfold get_mask
  rw [show lengths.enum = lengths.enumFrom 0 from rfl, maskLoop_enumFrom, if_neg]
  omega

/-- Terms multiplied by a mask can be replaced wherever the mask is nonzero. -/
theorem masked_sum_congr {T B : ℕ} (mask f g : Fin T → Fin B → ℝ)
    (h : ∀ t b, mask t b ≠ 0 → f t b = g t b) :
    (∑ t, ∑ b, mask t b * f t b) = ∑ t, ∑ b, mask t b * g t b := by
  apply Finset.sum_congr rfl
  intro t _
  apply Finset.sum_congr rfl
  intro b _
  by_cases hm : mask t b = 0
  · rw [hm, zero_mul, zero_mul]
  · rw [h t b hm]

/-- C1: for every input, `compute_bivariate_normal_pdf` returns the standard
bivariate Gaussian density
`(1 / (2 pi sigma_x sigma_y sqrt(1 - rho^2))) * exp(-(zx^2 + zy^2 - 2 rho zx zy) / (2 (1 - rho^2)))`
with `zx = (delta_x - mu_x)/sigma_x` and `zy = (delta_y - mu_y)/sigma_y`,
evaluated elementwise. -/
theorem bivariate_pdf_matches_standard_density
    (delta_x delta_y mu_x mu_y sigma_x sigma_y rho_xy : ℝ) :
    compute_bivariate_normal_pdf delta_x delta_y mu_x mu_y sigma_x sigma_y rho_xy =
      (1 / (2 * Real.pi * sigma_x * sigma_y * Real.sqrt (1 - rho_xy ^ 2))) *
        Real.exp (-((((delta_x - mu_x) / sigma_x) ^ 2 + ((delta_y - mu_y) / sigma_y) ^ 2 -
            2 * rho_xy * ((delta_x - mu_x) / sigma_x) * ((delta_y - mu_y) / sigma_y)) /
          (2 * (1 - rho_xy ^ 2)))) :=
  bivariate_pdf_eq_spec delta_x delta_y mu_x mu_y sigma_x sigma_y rho_xy

/-- C2: `compute_reconstruction_loss` returns the triple `(Ls + Lp, Ls, Lp)`
where `Ls` is the masked Gaussian-mixture log-likelihood term
`-sum(mask * log(eps + sum_m pi * pdf)) / ((N_max + 1) * batch_size)` with `pdf`
the standard bivariate density, and `Lp` is the pen-state cross entropy
`-sum(pen_state * log(q)) / ((N_max + 1) * batch_size)`. -/
theorem reconstruction_loss_is_mixture_loglik_plus_pen_ce
    (Nmax bs : ℕ) (eps : ℝ) {T B M : ℕ}
    (mask : Fin T → Fin B → ℝ) (delta_x delta_y : Fin T → Fin B → Fin M → ℝ)
    (pen_state : Fin T → Fin B → Fin 3 → ℝ)
    (pi mu_x mu_y sigma_x sigma_y rho_xy : Fin T → Fin B → Fin M → ℝ)
    (q : Fin T → Fin B → Fin 3 → ℝ) :
    compute_reconstruction_loss Nmax bs eps mask delta_x delta_y pen_state
        pi mu_x mu_y sigma_x sigma_y rho_xy q =
      (spec_Ls Nmax bs eps mask delta_x delta_y pi mu_x mu_y sigma_x sigma_y rho_xy +
          spec_Lp Nmax bs pen_state q,
        spec_Ls Nmax bs eps mask delta_x delta_y pi mu_x mu_y sigma_x sigma_y rho_xy,
        spec_Lp Nmax bs pen_state q) := by
  simp only [compute_reconstruction_loss, spec_Ls, spec_Lp, stroke_log_arg, pen_log_arg,
    bivariate_pdf_eq_spec]

/-- C8: when `sigma_x` and `sigma_y` are nonzero and `rho_xy^2 < 1`, every
division in `compute_bivariate_normal_pdf` is by a nonzero quantity and the
square root is applied to a positive argument; in particular the computed
density is nonzero.  These preconditions are genuine hypotheses: the function
has no guard of its own. -/
theorem bivariate_pdf_preconditions_well_defined (sigma_x sigma_y rho_xy : ℝ)
    (hx : sigma_x ≠ 0) (hy : sigma_y ≠ 0) (hr : rho_xy ^ 2 < 1) :
    bivariate_pdf_denominators_nonzero sigma_x sigma_y rho_xy ∧
    ∀ delta_x delta_y mu_x mu_y : ℝ,
      compute_bivariate_normal_pdf delta_x delta_y mu_x mu_y sigma_x sigma_y rho_xy ≠ 0 := by
  have h1 : 0 < 1 - rho_xy ^ 2 := by linarith
  have hsqrt : Real.sqrt (1 - rho_xy ^ 2) ≠ 0 := ne_of_gt (Real.sqrt_pos.mpr h1)
  have hconstden : 2 * Real.pi * sigma_x * sigma_y * Real.sqrt (1 - rho_xy ^ 2) ≠ 0 :=
    mul_ne_zero (mul_ne_zero (mul_ne_zero (mul_ne_zero two_ne_zero Real.pi_ne_zero) hx) hy)
      hsqrt
  refine ⟨⟨hx, hy, h1, mul_ne_zero (by norm_num) (ne_of_gt h1), hconstden⟩, ?_⟩
  intro dx dy mx my
  simp only [compute_bivariate_normal_pdf]
  exact mul_ne_zero (one_div_ne_zero hconstden) (Real.exp_ne_zero _)

/-- Witness for C8 at `sigma_x = 1`, `sigma_y = 1`, `rho_xy = 0`. -/
theorem bivariate_pdf_preconditions_witness :
    ((1 : ℝ) ≠ 0 ∧ (0 : ℝ) ^ 2 < 1) ∧
    (bivariate_pdf_denominators_nonzero 1 1 0 ∧
      ∀ delta_x delta_y mu_x mu_y : ℝ,
        compute_bivariate_normal_pdf delta_x delta_y mu_x mu_y 1 1 0 ≠ 0) :=
  ⟨⟨one_ne_zero, by norm_num⟩,
    bivariate_pdf_preconditions_well_defined 1 1 0 one_ne_zero one_ne_zero (by norm_num)⟩

/-- C9: the logarithm of the stroke loss `Ls` is guarded by the added
`hps.epsilon`, so its argument is positive whenever `epsilon` is positive and
the mixture terms are nonnegative; the logarithm of the pen loss `Lp` receives
the tensor `q` itself, with no epsilon, so its argument is positive only where
`q` is. -/
theorem pen_log_unguarded_stroke_log_guarded {T B M : ℕ} (eps : ℝ)
    (pi pdf : Fin T → Fin B → Fin M → ℝ) (q : Fin T → Fin B → Fin 3 → ℝ)
    (heps : 0 < eps) (hmix : ∀ t b m, 0 ≤ pi t b m * pdf t b m) :
    (∀ t b, 0 < stroke_log_arg eps pi pdf t b) ∧
    (∀ t b k, pen_log_arg q t b k = q t b k) ∧
    (∀ t b k, q t b k ≤ 0 → pen_log_arg q t b k ≤ 0) := by
  refine ⟨?_, fun _ _ _ => rfl, fun _ _ _ h => h⟩
  intro t b
  unfold stroke_log_arg
  have hs : 0 ≤ ∑ m, pi t b m * pdf t b m :=
    Finset.sum_nonneg (fun m _ => hmix t b m)
  linarith

/-- Witness for C9 at `eps = 1`, `pi = 0`, `pdf = 1`, `q = 2` on 1-element
index types. -/
theorem pen_log_guard_witness :
    ((0 : ℝ) < 1 ∧ (∀ (t b m : Fin 1),
        (0 : ℝ) ≤ (fun _ _ _ => (0 : ℝ)) t b m * (fun _ _ _ => (1 : ℝ)) t b m)) ∧
    ((∀ t b : Fin 1,
        0 < stroke_log_arg (1 : ℝ)
          ((fun _ _ _ => (0 : ℝ)) : Fin 1 → Fin 1 → Fin 1 → ℝ)
          ((fun _ _ _ => (1 : ℝ)) : Fin 1 → Fin 1 → Fin 1 → ℝ) t b) ∧
      (∀ (t b : Fin 1) (k : Fin 3),
        pen_log_arg (fun _ _ _ => (2 : ℝ)) t b k = (fun _ _ _ => (2 : ℝ)) t b k) ∧
      (∀ (t b : Fin 1) (k : Fin 3),
        (fun _ _ _ => (2 : ℝ)) t b k ≤ 0 → pen_log_arg (fun _ _ _ => (2 : ℝ)) t b k ≤ 0)) :=
  ⟨⟨by norm_num, fun _ _ _ => by norm_num⟩,
    pen_log_unguarded_stroke_log_guarded 1 (fun _ _ _ => 0) (fun _ _ _ => 1)
      (fun _ _ _ => 2) (by norm_num) (fun _ _ _ => by norm_num)⟩

/-- C3: for sequence lengths at most `N_max`, the mask returned by
`get_ground_truth` has shape `(N_max + 1, batch_width)` (its index types), its
column for sequence `c` is exactly `1` at rows `1` through the sequence length
inclusive and `0` everywhere else, row `0` of every column is `0`
unconditionally, and consequently the time step at index `0` of the targets
never contributes to the masked stroke loss `Ls`. -/
theorem mask_marks_rows_one_to_length (Nmax B : ℕ) (lengths : List ℕ)
    (hB : lengths.length = B) (hlen : ∀ x ∈ lengths, x ≤ Nmax) :
    (∀ (r : Fin (Nmax + 1)) (c : Fin B),
        get_mask Nmax B lengths r c =
          if 1 ≤ (r : ℕ) ∧ (r : ℕ) ≤ lengths.getD (c : ℕ) 0 then 1 else 0) ∧
    (∀ (r : Fin (Nmax + 1)) (c : Fin B), (r : ℕ) = 0 → get_mask Nmax B lengths r c = 0) ∧
    (∀ (bs M : ℕ) (eps : ℝ)
        (dx dx' dy dy' : Fin (Nmax + 1) → Fin B → Fin M → ℝ)
        (pen : Fin (Nmax + 1) → Fin B → Fin 3 → ℝ)
        (pi mu_x mu_y sigma_x sigma_y rho_xy : Fin (Nmax + 1) → Fin B → Fin M → ℝ)
        (q : Fin (Nmax + 1) → Fin B → Fin 3 → ℝ),
        (∀ (t : Fin (Nmax + 1)) (b : Fin B) (m : Fin M),
          (t : ℕ) ≠ 0 → dx t b m = dx' t b m) →
        (∀ (t : Fin (Nmax + 1)) (b : Fin B) (m : Fin M),
          (t : ℕ) ≠ 0 → dy t b m = dy' t b m) →
        (compute_reconstruction_loss Nmax bs eps (get_mask Nmax B lengths)
            dx dy pen pi mu_x mu_y sigma_x sigma_y rho_xy q).2.1 =
          (compute_reconstruction_loss Nmax bs eps (get_mask Nmax B lengths)
            dx' dy' pen pi mu_x mu_y sigma_x sigma_y rho_xy q).2.1) := by
  refine ⟨?_, ?_, ?_⟩
  · intro r c
    exact get_mask_eq Nmax B lengths r c (hB ▸ c.isLt) hlen
  · intro r c hr
    exact get_mask_row_zero Nmax B lengths r c hr
  · intro bs M eps dx dx' dy dy' pen pi mu_x mu_y sigma_x sigma_y rho_xy q hdx hdy
    simp only [compute_reconstruction_loss]
    refine congrArg (fun s => -s / (((Nmax + 1) * bs : ℕ) : ℝ)) ?_
    apply masked_sum_congr
    intro t b hm
    have ht : (t : ℕ) ≠ 0 := fun h0 => hm (get_mask_row_zero Nmax B lengths t b h0)
    have harg : ∀ m : Fin M,
        compute_bivariate_normal_pdf (dx t b m) (dy t b m) (mu_x t b m) (mu_y t b m)
            (sigma_x t b m) (sigma_y t b m) (rho_xy t b m) =
          compute_bivariate_normal_pdf (dx' t b m) (dy' t b m) (mu_x t b m) (mu_y t b m)
            (sigma_x t b m) (sigma_y t b m) (rho_xy t b m) := by
      intro m
      rw [hdx t b m ht, hdy t b m ht]
    unfold stroke_log_arg
    congr 1
    congr 1
    apply Finset.sum_congr rfl
    intro m _
    exact congrArg (fun z => pi t b m * z) (harg m)

/-- Witness for C3 at `N_max = 2`, batch width 1, lengths `[1]`. -/
theorem mask_marks_rows_witness :
    (([1] : List ℕ).length = 1 ∧ ∀ x ∈ ([1] : List ℕ), x ≤ 2) ∧
    ((∀ (r : Fin (2 + 1)) (c : Fin 1),
        get_mask 2 1 [1] r c =
          if 1 ≤ (r : ℕ) ∧ (r : ℕ) ≤ ([1] : List ℕ).getD (c : ℕ) 0 then 1 else 0) ∧
      (∀ (r : Fin (2 + 1)) (c : Fin 1), (r : ℕ) = 0 → get_mask 2 1 [1] r c = 0) ∧
      (∀ (bs M : ℕ) (eps : ℝ)
          (dx dx' dy dy' : Fin (2 + 1) → Fin 1 → Fin M → ℝ)
          (pen : Fin (2 + 1) → Fin 1 → Fin 3 → ℝ)
          (pi mu_x mu_y sigma_x sigma_y rho_xy : Fin (2 + 1) → Fin 1 → Fin M → ℝ)
          (q : Fin (2 + 1) → Fin 1 → Fin 3 → ℝ),
          (∀ (t : Fin (2 + 1)) (b : Fin 1) (m : Fin M),
            (t : ℕ) ≠ 0 → dx t b m = dx' t b m) →
          (∀ (t : Fin (2 + 1)) (b : Fin 1) (m : Fin M),
            (t : ℕ) ≠ 0 → dy t b m = dy' t b m) →
          (compute_reconstruction_loss 2 bs eps (get_mask 2 1 [1])
              dx dy pen pi mu_x mu_y sigma_x sigma_y rho_xy q).2.1 =
            (compute_reconstruction_loss 2 bs eps (get_mask 2 1 [1])
              dx' dy' pen pi mu_x mu_y sigma_x sigma_y rho_xy q).2.1)) :=
  ⟨⟨rfl, by decide⟩, mask_marks_rows_one_to_length 2 1 [1] rfl (by decide)⟩

/-- C5: `get_ground_truth` appends exactly one end-of-sequence row
`[0, 0, 0, 0, 1]` per batch element at the end of the time axis (the extended
batch agrees with the input batch at every original time index and holds the
end-of-sequence row at the new final index), so the returned `pen_state` has
`N_max + 1` time steps and its final time step equals `(0, 0, 1)` for every
batch element. -/
theorem ground_truth_appends_single_eos (Nmax B M : ℕ)
    (batch : Fin (Nmax + 1) → Fin B → Fin 5 → ℝ) (lengths : List ℕ) :
    (∀ (t : Fin (Nmax + 1)) (b : Fin B) (j : Fin 5),
        extendBatch batch t.castSucc b j = batch t b j) ∧
    (∀ (b : Fin B) (j : Fin 5),
        extendBatch batch (Fin.last (Nmax + 1)) b j = eosRow j) ∧
    (∀ b : Fin B,
        (get_ground_truth Nmax B M batch lengths).2.2.2 (Fin.last Nmax) b 0 = 0 ∧
        (get_ground_truth Nmax B M batch lengths).2.2.2 (Fin.last Nmax) b 1 = 0 ∧
        (get_ground_truth Nmax B M batch lengths).2.2.2 (Fin.last Nmax) b 2 = 1) := by
  have hlast : ∀ (b : Fin B) (j : Fin 5),
      extendBatch batch (Fin.last (Nmax + 1)) b j = eosRow j := by
    intro b j
    unfold extendBatch
    rw [dif_neg]
    simp [Fin.val_last]
  refine ⟨?_, hlast, ?_⟩
  · intro t b j
    unfold extendBatch
    rw [dif_pos (by simp [Fin.coe_castSucc, t.isLt])]
    simp [Fin.coe_castSucc, Fin.eta]
  · intro b
    have hpen : ∀ k : Fin 3,
        (get_ground_truth Nmax B M batch lengths).2.2.2 (Fin.last Nmax) b k =
          eosRow ⟨(k : ℕ) + 2, by omega⟩ := by
      intro k
      show extendBatch batch (Fin.last Nmax).succ b ⟨(k : ℕ) + 2, by omega⟩ = _
      rw [show (Fin.last Nmax).succ = Fin.last (Nmax + 1) from rfl]
      exact hlast b _
    refine ⟨?_, ?_, ?_⟩ <;> rw [hpen] <;> simp [eosRow]

/-- C10: the `delta_x` and `delta_y` targets returned by `get_ground_truth` are
the offset columns of the extended batch (time indices `1` onward, stroke
components `0` and `1`) replicated identically along the mixture dimension:
every mixture slice `m`, `n` equals the corresponding extended-batch column. -/
theorem ground_truth_replicates_offsets (Nmax B M : ℕ)
    (batch : Fin (Nmax + 1) → Fin B → Fin 5 → ℝ) (lengths : List ℕ)
    (t : Fin (Nmax + 1)) (b : Fin B) (m n : Fin M) :
    (get_ground_truth Nmax B M batch lengths).2.1 t b m = extendBatch batch t.succ b 0 ∧
    (get_ground_truth Nmax B M batch lengths).2.1 t b n = extendBatch batch t.succ b 0 ∧
    (get_ground_truth Nmax B M batch lengths).2.2.1 t b m = extendBatch batch t.succ b 1 ∧
    (get_ground_truth Nmax B M batch lengths).2.2.1 t b n = extendBatch batch t.succ b 1 :=
  ⟨rfl, rfl, rfl, rfl⟩

/-- C4: in every iteration of the training loop, exactly one generator update
and one discriminator update occur, in that order: the generator gradients are
zeroed, the generator loss is computed and backpropagated and the generator
step is applied, strictly before the discriminator gradients are zeroed, the
discriminator loss is computed and backpropagated and the discriminator step is
applied. -/
theorem train_alternates_generator_then_discriminator (i : ℕ) :
    (epochTrace i).count TrainEvent.stepG = 1 ∧
    (epochTrace i).count TrainEvent.stepD = 1 ∧
    (epochTrace i).indexOf TrainEvent.zeroGradG < (epochTrace i).indexOf TrainEvent.computeLossG ∧
    (epochTrace i).indexOf TrainEvent.computeLossG < (epochTrace i).indexOf TrainEvent.backwardG ∧
    (epochTrace i).indexOf TrainEvent.backwardG < (epochTrace i).indexOf TrainEvent.stepG ∧
    (epochTrace i).indexOf TrainEvent.stepG < (epochTrace i).indexOf TrainEvent.zeroGradD ∧
    (epochTrace i).indexOf TrainEvent.zeroGradD < (epochTrace i).indexOf TrainEvent.computeLossD ∧
    (epochTrace i).indexOf TrainEvent.computeLossD < (epochTrace i).indexOf TrainEvent.backwardD ∧
    (epochTrace i).indexOf TrainEvent.backwardD < (epochTrace i).indexOf TrainEvent.stepD := by
  by_cases h : i % 100 = 0
  · have he : epochTrace i =
        epochBody ++ [TrainEvent.saveModel, TrainEvent.generateImage] := by
      unfold epochTrace
      rw [if_pos h]
    rw [he]
    decide
  · have he : epochTrace i = epochBody ++ [] := by
      unfold epochTrace
      rw [if_neg h]
    rw [he]
    decide

/-- C6: the generator total loss is the convex combination
`(1 - gan_loss_weight) * loss_content + gan_loss_weight * loss_GAN` of the
reconstruction loss and the MSE adversarial loss against the all-ones target,
and the discriminator total loss is the average of its MSE losses on the real
batch (all-ones target) and on the generated sequences (all-zeros target). -/
theorem generator_and_discriminator_loss_combination {S : Type} (Nmax bs : ℕ)
    (eps gan_loss_weight : ℝ) (discriminator : S → Fin bs → ℝ)
    (generated_sequences batch_input : S) {T B M : ℕ}
    (mask : Fin T → Fin B → ℝ) (delta_x delta_y : Fin T → Fin B → Fin M → ℝ)
    (pen_state : Fin T → Fin B → Fin 3 → ℝ)
    (pi mu_x mu_y sigma_x sigma_y rho_xy : Fin T → Fin B → Fin M → ℝ)
    (q : Fin T → Fin B → Fin 3 → ℝ) :
    (epoch_losses Nmax bs eps gan_loss_weight discriminator generated_sequences batch_input
        mask delta_x delta_y pen_state pi mu_x mu_y sigma_x sigma_y rho_xy q).1 =
      (1 - gan_loss_weight) *
          (compute_reconstruction_loss Nmax bs eps mask delta_x delta_y pen_state
            pi mu_x mu_y sigma_x sigma_y rho_xy q).1 +
        gan_loss_weight *
          criterion_GAN (discriminator generated_sequences) (fun _ => 1) ∧
    (epoch_losses Nmax bs eps gan_loss_weight discriminator generated_sequences batch_input
        mask delta_x delta_y pen_state pi mu_x mu_y sigma_x sigma_y rho_xy q).2 =
      (criterion_GAN (discriminator batch_input) (fun _ => 1) +
        criterion_GAN (discriminator generated_sequences) (fun _ => 0)) / 2 :=
  ⟨rfl, rfl⟩

/-- C7: the training loop is a single sequential process with no interleaving:
the trace of `num_epoch` epochs is the trace of the first `num_epoch - 1`
epochs followed by the last epoch's trace, every epoch performs the same fixed
body of operations in the same order, and the model save happens exactly in the
epochs where `i % 100 == 0`. -/
theorem train_is_sequential_and_deterministic (n i : ℕ) :
    trainTrace (n + 1) = trainTrace n ++ epochTrace n ∧
    (epochTrace i).take epochBody.length = epochBody ∧
    (epochTrace i).count TrainEvent.saveModel = (if i % 100 = 0 then 1 else 0) := by
  refine ⟨?_, ?_, ?_⟩
  · simp [trainTrace, List.range_succ]
  · unfold epochTrace
    exact List.take_left epochBody _
  · by_cases h : i % 100 = 0
    · have he : epochTrace i =
          epochBody ++ [TrainEvent.saveModel, TrainEvent.generateImage] := by
        unfold epochTrace
        rw [if_pos h]
      rw [he, if_pos h]
      decide
    · have he : epochTrace i = epochBody ++ [] := by
        unfold epochTrace
        rw [if_neg h]
      rw [he, if_neg h]
      decide

end SketchRNNGAN
